import Mathlib

/-!
Shallow embedding of `src/job_watcher.rs` from the `turm` repository.

Rust `String`/`&str` values are modelled as `List Char` (named `Str` below);
byte offsets produced by the regex engine are modelled as character indices,
which coincide for the ASCII tokens involved (every match is a two-ASCII-char
token, and matches always lie on character boundaries).
-/

set_option maxRecDepth 10000

/-- Character-list model of Rust strings. -/
abbrev Str := List Char

/-- Converts a Lean string literal into its character-list model. -/
def str (s : String) : Str := s.data

/-- The `Job` record (fields as constructed in `job_watcher.rs`; the struct itself
lives in `app.rs`, but every field is visible at the two construction sites). -/
structure Job where
  job_id : Str
  array_id : Str
  array_step : Option Str
  name : Str
  state : Str
  state_compact : Str
  reason : Option Str
  qos : Str
  user : Str
  time : Str
  tres : Str
  partition : Str
  nodelist : Str
  command : Str
  stdout : Option Str
  stderr : Option Str
deriving Repr, DecidableEq

/-! ## Filename template resolver (`JobWatcher::resolve_path`) -/

/-- The capture alternatives of the regex `%(%|A|a|J|j|N|n|s|t|u|x)`. -/
def tokenChars : List Char := ['%', 'A', 'a', 'J', 'j', 'N', 'n', 's', 't', 'u', 'x']

/-- Positions (and second characters) of the successive non-overlapping
leftmost matches of the token regex, as produced by `RE.captures_iter`.
A match is a `'%'` immediately followed by one of `tokenChars`; after a
match the scan resumes two characters later, otherwise one character later. -/
def findMatches : Str → Nat → List (Nat × Char)
  | a :: b :: rest, i =>
    if a = '%' ∧ b ∈ tokenChars then (i, b) :: findMatches rest (i + 2)
    else findMatches (b :: rest) (i + 1)
  | _, _ => []

/-- Rust `String::replace_range(start..start+len, repl)` on the char-list model. -/
def replaceRange (s : Str) (start len : Nat) (repl : Str) : Str :=
  s.take start ++ repl ++ s.drop (start + len)

/-- Rust `host.split(',').next().unwrap_or(host)`: the prefix of `host` up to the
first comma (the whole string when there is no comma, also matching the case of
the first split piece). -/
def firstHost (host : Str) : Str := host.takeWhile (fun c => c != ',')

/-- The replacement string for one matched token, following the `match m.as_str()`
dispatch in `resolve_path`. The `_ => unreachable!()` arm is modelled as `none`. -/
def tokenReplacement (c : Char) (array_master array_id id host user name : Str) : Option Str :=
  if c = '%' then some (str "%")
  else if c = 'A' then some array_master
  else if c = 'a' then some array_id
  else if c = 'J' then some id
  else if c = 'j' then some id
  else if c = 'N' then some (firstHost host)
  else if c = 'n' then some (str "0")
  else if c = 's' then some (str "batch")
  else if c = 't' then some (str "0")
  else if c = 'u' then some user
  else if c = 'x' then some name
  else none

/-- The `for cap in ... .rev()` loop body of `resolve_path`: applies the
replacements for the given (already reversed) match list, mutating the path
with `replace_range`; a `none` replacement (the unreachable arm) aborts. -/
def applyRev (array_master array_id id host user name : Str) :
    List (Nat × Char) → Str → Option Str
  | [], s => some s
  | (i, c) :: rest, s =>
    match tokenReplacement c array_master array_id id host user name with
    | some r => applyRev array_master array_id id host user name rest (replaceRange s i 2 r)
    | none => none

/-- Slurm's reserved "no value" sentinel used by `resolve_path`. -/
def slurm_no_val : Str := str "4294967294"

/-- Rust `PathBuf::from(base).join(file)` for a relative `file` (the only use in
the source joins the literal default file names onto the working directory). -/
def pathJoin (base file : Str) : Str :=
  if base = [] then file
  else if base.getLast? = some '/' then base ++ file
  else base ++ str "/" ++ file

/-- `JobWatcher::resolve_path`: resolves the `N/A` array-task sentinel,
synthesizes the default template when the input is empty, then substitutes all
token matches in reverse order of their position. -/
def resolve_path (path array_master array_id id host user name working_dir : Str) :
    Option Str :=
  let array_id := if array_id = str "N/A" then slurm_no_val else array_id
  let path :=
    if path = [] then
      pathJoin working_dir
        (if array_id = slurm_no_val then str "slurm-%J.out" else str "slurm-%A_%a.out")
    else path
  applyRev array_master array_id id host user name (findMatches path 0).reverse path

/-! ## Line splitting and other string helpers used by the parsers -/

/-- Worker for `splitOnList`. `fuel` only bounds the recursion so that the
definition is structural; `fuel = l.length` always suffices, because every step
consumes at least one element of `l` (the separator is non-empty at every call
site), so the `0` arm is never reached from `splitOnList`. -/
def splitOnListAux (sep : Str) : Nat → Str → Str → List Str
  | _, [], acc => [acc.reverse]
  | 0, l, acc => [acc.reverse ++ l]
  | fuel + 1, x :: xs, acc =>
    if sep.isPrefixOf (x :: xs) then
      acc.reverse :: splitOnListAux sep fuel (xs.drop (sep.length - 1)) []
    else
      splitOnListAux sep fuel xs (x :: acc)

/-- Rust `str::split(sep)` for a non-empty literal separator: the pieces between
successive non-overlapping leftmost occurrences of `sep`. -/
def splitOnList (sep l : Str) : List Str :=
  if sep = [] then [l] else splitOnListAux sep l.length l []

/-- Rust `str::trim` (whitespace removed from both ends). -/
def trimStr (l : Str) : Str :=
  ((l.dropWhile Char.isWhitespace).reverse.dropWhile Char.isWhitespace).reverse

/-- Rust `str::split_whitespace`: maximal non-empty runs of non-whitespace. -/
def split_whitespace (l : Str) : List Str :=
  (l.splitOnP Char.isWhitespace).filter (fun w => !w.isEmpty)

/-- The `match state` table of `get_finished_jobs` mapping long state names to
compact codes, with unknown states passed through. -/
def compactState (state : Str) : Str :=
  if state = str "RUNNING" then str "R"
  else if state = str "PENDING" then str "PD"
  else if state = str "COMPLETED" then str "CD"
  else if state = str "CANCELLED" then str "CA"
  else if state = str "FAILED" then str "F"
  else if state = str "TIMEOUT" then str "TO"
  else if state = str "NODE_FAIL" then str "NF"
  else if state = str "PREEMPTED" then str "PR"
  else if state = str "SUSPENDED" then str "S"
  else state

/-- The array-id derivation block of `get_finished_jobs`: splits the job id on
`'_'`; exactly two pieces give `(array_job_id, array_task_id)`, anything else
gives `(id, "N/A")`. -/
def derive_array_ids (id : Str) : Str × Str :=
  if '_' ∈ id then
    match splitOnList (str "_") id with
    | [a, b] => (a, b)
    | _ => (id, str "N/A")
  else (id, str "N/A")

/-- The field delimiter used for both queries. -/
def output_separator : Str := str "###turm###"

/-- The 18 `squeue --Format` fields requested by `get_running_jobs`. -/
def running_fields : List String :=
  ["jobid", "name", "state", "username", "timeused", "tres-alloc", "partition",
   "nodelist", "stdout", "stderr", "command", "statecompact", "reason", "qos",
   "ArrayJobID", "ArrayTaskID", "NodeList", "WorkDir"]

/-- The 11 `sacct --format` fields requested by `get_finished_jobs`. -/
def finished_fields : List String :=
  ["jobid", "jobname", "state", "user", "elapsed", "alloctres", "partition",
   "nodelist", "submitline", "reason", "qos"]

/-- The per-line body of the `filter_map` in `get_running_jobs`: reject the line
unless the split yields exactly `fields.len() + 1` parts, otherwise build a
`Job` from the parts positionally (indexing is in bounds by the length guard,
so `getD` never takes its default). -/
def parse_running_line (l : Str) : Option Job :=
  let parts := splitOnList output_separator l
  if parts.length ≠ running_fields.length + 1 then none
  else
    let id := parts.getD 0 []
    let name := parts.getD 1 []
    let state := parts.getD 2 []
    let user := parts.getD 3 []
    let time := parts.getD 4 []
    let tres := parts.getD 5 []
    let partition := parts.getD 6 []
    let nodelist := parts.getD 7 []
    let stdout := parts.getD 8 []
    let stderr := parts.getD 9 []
    let command := parts.getD 10 []
    let state_compact := parts.getD 11 []
    let reason := parts.getD 12 []
    let qos := parts.getD 13 []
    let array_job_id := parts.getD 14 []
    let array_task_id := parts.getD 15 []
    let node_list := parts.getD 16 []
    let working_dir := parts.getD 17 []
    some {
      job_id := id
      array_id := array_job_id
      array_step := if array_task_id = str "N/A" then none else some array_task_id
      name := name
      state := state
      state_compact := state_compact
      reason := if reason = str "None" then none else some reason
      qos := qos
      user := user
      time := time
      tres := tres
      partition := partition
      nodelist := nodelist
      command := command
      stdout := resolve_path stdout array_job_id array_task_id id node_list user name working_dir
      stderr := resolve_path stderr array_job_id array_task_id id node_list user name working_dir }

/-- The per-line body of the `filter_map` in `get_finished_jobs`: length guard,
command normalization (strip leading `sbatch*` / `-*` whitespace-separated
tokens, falling back to the raw submit line when the result is empty), state
compaction, and array-id derivation. -/
def parse_finished_line (l : Str) : Option Job :=
  let parts := splitOnList output_separator l
  if parts.length ≠ finished_fields.length + 1 then none
  else
    let id := parts.getD 0 []
    let name := parts.getD 1 []
    let state := parts.getD 2 []
    let user := parts.getD 3 []
    let time := parts.getD 4 []
    let tres := parts.getD 5 []
    let partition := parts.getD 6 []
    let nodelist := parts.getD 7 []
    let command := List.intercalate (str " ")
      ((split_whitespace (parts.getD 8 [])).dropWhile
        (fun arg => (str "sbatch").isPrefixOf arg || arg.headD ' ' == '-'))
    let command := if command = [] then parts.getD 8 [] else command
    let reason := parts.getD 9 []
    let qos := parts.getD 10 []
    let state_compact := compactState state
    let ids := derive_array_ids id
    some {
      job_id := id
      array_id := ids.1
      array_step := if ids.2 = str "N/A" then none else some ids.2
      name := name
      state := state
      state_compact := state_compact
      reason := if reason = str "None" then none else some reason
      qos := qos
      user := user
      time := time
      tres := tres
      partition := partition
      nodelist := nodelist
      command := command
      stdout := none
      stderr := none }

/-- `JobWatcher::get_running_jobs` applied to the captured output lines:
trim each line, then keep the successfully parsed ones. -/
def get_running_jobs (out_lines : List Str) : List Job :=
  (out_lines.map trimStr).filterMap parse_running_line

/-- `JobWatcher::get_finished_jobs` applied to the captured output lines. -/
def get_finished_jobs (out_lines : List Str) : List Job :=
  (out_lines.map trimStr).filterMap parse_finished_line

/-! ## Job cache and one poll-loop cycle (`JobWatcher::run`) -/

/-- The `HashMap<String, Job>` job cache, modelled as an association list with
unique keys; only keyed lookup, keyed overwrite and key-set filtering are
observable in the source, and all three are order-independent. -/
abbrev JobCache := List (Str × Job)

/-- `HashMap::get`. -/
def cacheGet (k : Str) : JobCache → Option Job
  | [] => none
  | (k', v) :: rest => if k' = k then some v else cacheGet k rest

/-- `HashMap::insert` (overwrites any existing entry for the key). -/
def cacheInsert (k : Str) (v : Job) (c : JobCache) : JobCache :=
  (k, v) :: c.filter (fun kv => decide (kv.1 ≠ k))

/-- The `for job in &running_jobs { self.job_cache.insert(...) }` loop. -/
def upsertAll (jobs : List Job) (c : JobCache) : JobCache :=
  jobs.foldl (fun c j => cacheInsert j.job_id j c) c

/-- The backfill closure of `run`: copy `stdout`/`stderr` from the cached entry
with the same `job_id`, if any. -/
def backfill (c : JobCache) (job : Job) : Job :=
  match cacheGet job.job_id c with
  | some cached => { job with stdout := cached.stdout, stderr := cached.stderr }
  | none => job

/-- One iteration of the `loop` in `JobWatcher::run`, given the two parsed
batches: upsert running jobs into the cache, backfill finished jobs, combine,
prune the cache against the combined id set, and publish. The published list
and the cache carried to the next iteration are returned. -/
def runCycle (running finished : List Job) (cache : JobCache) : List Job × JobCache :=
  let cache := upsertAll running cache
  let finished := finished.map (backfill cache)
  let jobs := running ++ finished
  let active_job_ids := jobs.map (fun j => j.job_id)
  let cache := cache.filter (fun kv : Str × Job => decide (kv.1 ∈ active_job_ids))
  (jobs, cache)

/-! ## Helper lemmas about the token scanner -/

theorem findMatches_nil (i : Nat) : findMatches [] i = [] := rfl

theorem findMatches_single (a : Char) (i : Nat) : findMatches [a] i = [] := rfl

theorem findMatches_cons_ne (a : Char) (l : Str) (i : Nat) (ha : a ≠ '%') :
    findMatches (a :: l) i = findMatches l (i + 1) := by
  cases l with
  | nil => rfl
  | cons b u => simp [findMatches, ha]

theorem findMatches_token (c : Char) (l : Str) (i : Nat) (hc : c ∈ tokenChars) :
    findMatches ('%' :: c :: l) i = (i, c) :: findMatches l (i + 2) := by
  simp [findMatches, hc]

theorem findMatches_append_left (s t : Str) (i : Nat) (hs : '%' ∉ s) :
    findMatches (s ++ t) i = findMatches t (i + s.length) := by
  induction s generalizing i with
  | nil => simp
  | cons a s ih =>
    have ha : a ≠ '%' := by rintro rfl; exact hs (List.mem_cons_self _ _)
    rw [List.cons_append, findMatches_cons_ne a (s ++ t) i ha,
      ih (i + 1) (fun h => hs (List.mem_cons_of_mem a h))]
    congr 1
    simp
    omega

theorem findMatches_eq_nil_of_no_token (s : Str)
    (h : ∀ t₁ c t₂, s = t₁ ++ '%' :: c :: t₂ → c ∉ tokenChars) (i : Nat) :
    findMatches s i = [] := by
  induction s generalizing i with
  | nil => rfl
  | cons a s ih =>
    cases s with
    | nil => rfl
    | cons b u =>
      by_cases hab : a = '%' ∧ b ∈ tokenChars
      · exact absurd hab.2 (h [] b u (by rw [hab.1]; rfl))
      · have hstep : findMatches (a :: b :: u) i = findMatches (b :: u) (i + 1) := by
          simp only [findMatches]
          rw [if_neg hab]
        rw [hstep]
        exact ih (fun t₁ c t₂ he => h (a :: t₁) c t₂ (by rw [List.cons_append, ← he])) (i + 1)

theorem no_token_of_no_percent (s : Str) (h : '%' ∉ s) :
    ∀ t₁ c t₂, s = t₁ ++ '%' :: c :: t₂ → c ∉ tokenChars := by
  intro t₁ c t₂ he _
  subst he
  simp at h

theorem findMatches_mem_aux :
    ∀ (n : Nat) (s : Str), s.length ≤ n → ∀ (i : Nat) (pc : Nat × Char),
      pc ∈ findMatches s i → pc.2 ∈ tokenChars := by
  intro n
  induction n with
  | zero =>
    intro s hs i pc hpc
    rcases s with _ | ⟨a, s⟩
    · simp [findMatches_nil] at hpc
    · simp at hs
  | succ n ih =>
    intro s hs i pc hpc
    rcases s with _ | ⟨a, _ | ⟨b, u⟩⟩
    · simp [findMatches_nil] at hpc
    · simp [findMatches_single] at hpc
    · by_cases hab : a = '%' ∧ b ∈ tokenChars
      · obtain ⟨ha, hb⟩ := hab
        subst ha
        rw [findMatches_token b u i hb] at hpc
        rcases List.mem_cons.mp hpc with rfl | hpc'
        · exact hb
        · refine ih u ?_ (i + 2) pc hpc'
          simp at hs
          omega
      · have hstep : findMatches (a :: b :: u) i = findMatches (b :: u) (i + 1) := by
          simp only [findMatches]
          rw [if_neg hab]
        rw [hstep] at hpc
        refine ih (b :: u) ?_ (i + 1) pc hpc
        simp at hs ⊢
        omega

theorem findMatches_mem (s : Str) (i : Nat) (pc : Nat × Char)
    (h : pc ∈ findMatches s i) : pc.2 ∈ tokenChars :=
  findMatches_mem_aux s.length s le_rfl i pc h

/-! ## Helper lemmas about replacement application -/

theorem applyRev_nil (am aid id host user name : Str) (s : Str) :
    applyRev am aid id host user name [] s = some s := rfl

theorem applyRev_cons (am aid id host user name : Str) (i : Nat) (c : Char)
    (ms : List (Nat × Char)) (s r : Str)
    (h : tokenReplacement c am aid id host user name = some r) :
    applyRev am aid id host user name ((i, c) :: ms) s =
      applyRev am aid id host user name ms (replaceRange s i 2 r) := by
  simp only [applyRev, h]

theorem tokenReplacement_isSome (c : Char) (am aid id host user name : Str)
    (hc : c ∈ tokenChars) :
    ∃ r, tokenReplacement c am aid id host user name = some r := by
  simp only [tokenChars, List.mem_cons, List.not_mem_nil, or_false] at hc
  rcases hc with rfl | rfl | rfl | rfl | rfl | rfl | rfl | rfl | rfl | rfl | rfl <;>
    exact ⟨_, rfl⟩

theorem applyRev_isSome (am aid id host user name : Str) :
    ∀ (ms : List (Nat × Char)) (s : Str), (∀ pc ∈ ms, pc.2 ∈ tokenChars) →
      ∃ r, applyRev am aid id host user name ms s = some r := by
  intro ms
  induction ms with
  | nil => exact fun s _ => ⟨s, rfl⟩
  | cons pc ms ih =>
    intro s h
    obtain ⟨i, c⟩ := pc
    obtain ⟨r, hr⟩ := tokenReplacement_isSome c am aid id host user name
      (h (i, c) (List.mem_cons_self _ _))
    rw [applyRev_cons am aid id host user name i c ms s r hr]
    exact ih _ (fun pc hpc => h pc (List.mem_cons_of_mem _ hpc))

theorem resolve_path_of_ne_nil (path am aid id host user name wd : Str) (hne : path ≠ []) :
    resolve_path path am aid id host user name wd =
      applyRev am (if aid = str "N/A" then slurm_no_val else aid) id host user name
        (findMatches path 0).reverse path := by
  simp only [resolve_path]
  rw [if_neg hne]

theorem tokenReplacement_A (am aid id host user name : Str) :
    tokenReplacement 'A' am aid id host user name = some am := rfl

theorem tokenReplacement_a (am aid id host user name : Str) :
    tokenReplacement 'a' am aid id host user name = some aid := rfl

theorem replaceRange_middle (s₁ s₂ repl : Str) (a b : Char) :
    replaceRange (s₁ ++ a :: b :: s₂) s₁.length 2 repl = s₁ ++ repl ++ s₂ := by
  have hdrop : (s₁ ++ a :: b :: s₂).drop (s₁.length + 2) = s₂ := by
    rw [show s₁ ++ a :: b :: s₂ = (s₁ ++ [a, b]) ++ s₂ by simp,
      List.drop_left' (by simp)]
  rw [replaceRange, List.take_left, hdrop]

/-! ## Theorems for the template-resolver claims -/

/-- C9: `resolve_path` is total — for every template and context it returns
`some` path; the `unreachable!()` arm of the token dispatch (modelled as the
`none` result of `tokenReplacement`) is never taken, because every match
produced by the token pattern has its second character in `tokenChars`. -/
theorem resolve_path_total (path am aid id host user name wd : Str) :
    ∃ r, resolve_path path am aid id host user name wd = some r := by
  simp only [resolve_path]
  apply applyRev_isSome
  intro pc hpc
  exact findMatches_mem _ _ pc (List.mem_reverse.mp hpc)

/-- C1: tokens are substituted right-to-left, so for a template containing the
adjacent tokens `%A%a` both are replaced with the array-parent id and the
resolved array-task id respectively, for replacement values of any lengths. -/
theorem resolve_path_adjacent_tokens (s₁ s₂ am aid id host user name wd : Str)
    (h₁ : '%' ∉ s₁) (h₂ : '%' ∉ s₂) :
    resolve_path (s₁ ++ str "%A%a" ++ s₂) am aid id host user name wd =
      some (s₁ ++ am ++ (if aid = str "N/A" then slurm_no_val else aid) ++ s₂) := by
  have hform : s₁ ++ str "%A%a" ++ s₂ = s₁ ++ '%' :: 'A' :: '%' :: 'a' :: s₂ := by
    rw [List.append_assoc]; rfl
  rw [hform]
  have hne : s₁ ++ '%' :: 'A' :: '%' :: 'a' :: s₂ ≠ [] := by simp
  rw [resolve_path_of_ne_nil _ _ _ _ _ _ _ _ hne]
  generalize (if aid = str "N/A" then slurm_no_val else aid) = aval
  have hm : findMatches (s₁ ++ '%' :: 'A' :: '%' :: 'a' :: s₂) 0 =
      [(s₁.length, 'A'), (s₁.length + 2, 'a')] := by
    rw [findMatches_append_left s₁ _ 0 h₁,
      findMatches_token 'A' _ _ (by simp [tokenChars]),
      findMatches_token 'a' _ _ (by simp [tokenChars]),
      findMatches_eq_nil_of_no_token s₂ (no_token_of_no_percent s₂ h₂)]
    simp
  rw [hm]
  have hrev : ([(s₁.length, 'A'), (s₁.length + 2, 'a')] : List (Nat × Char)).reverse =
      [(s₁.length + 2, 'a'), (s₁.length, 'A')] := by simp
  rw [hrev,
    applyRev_cons am aval id host user name _ _ _ _ _ (tokenReplacement_a am aval id host user name)]
  have hrr1 : replaceRange (s₁ ++ '%' :: 'A' :: '%' :: 'a' :: s₂) (s₁.length + 2) 2 aval =
      (s₁ ++ ['%', 'A']) ++ aval ++ s₂ := by
    rw [show s₁ ++ '%' :: 'A' :: '%' :: 'a' :: s₂ = (s₁ ++ ['%', 'A']) ++ '%' :: 'a' :: s₂
        by simp,
      show s₁.length + 2 = (s₁ ++ ['%', 'A']).length by simp]
    exact replaceRange_middle (s₁ ++ ['%', 'A']) s₂ aval '%' 'a'
  rw [hrr1,
    applyRev_cons am aval id host user name _ _ _ _ _ (tokenReplacement_A am aval id host user name)]
  have hrr2 : replaceRange ((s₁ ++ ['%', 'A']) ++ aval ++ s₂) s₁.length 2 am =
      s₁ ++ am ++ (aval ++ s₂) := by
    rw [show (s₁ ++ ['%', 'A']) ++ aval ++ s₂ = s₁ ++ '%' :: 'A' :: (aval ++ s₂) by simp]
    exact replaceRange_middle s₁ (aval ++ s₂) am '%' 'A'
  rw [hrr2, applyRev_nil]
  simp

/-- C1 witness at a concrete template and context. -/
theorem resolve_path_adjacent_tokens_witness :
    ('%' ∉ str "out-") ∧ ('%' ∉ str ".txt") ∧
    resolve_path (str "out-" ++ str "%A%a" ++ str ".txt") (str "12345") (str "7")
        (str "1") (str "h") (str "u") (str "n") (str "/w") =
      some (str "out-" ++ str "12345" ++
        (if str "7" = str "N/A" then slurm_no_val else str "7") ++ str ".txt") :=
  ⟨by decide, by decide,
    resolve_path_adjacent_tokens (str "out-") (str ".txt") (str "12345") (str "7")
      (str "1") (str "h") (str "u") (str "n") (str "/w") (by decide) (by decide)⟩

/-- C8: resolving a template containing `%a` when the supplied array-task id is
the literal `N/A` substitutes the scheduler's reserved sentinel `4294967294`. -/
theorem resolve_path_na_sentinel (s₁ s₂ am id host user name wd : Str)
    (h₁ : '%' ∉ s₁) (h₂ : '%' ∉ s₂) :
    resolve_path (s₁ ++ str "%a" ++ s₂) am (str "N/A") id host user name wd =
      some (s₁ ++ slurm_no_val ++ s₂) := by
  have hform : s₁ ++ str "%a" ++ s₂ = s₁ ++ '%' :: 'a' :: s₂ := by
    rw [List.append_assoc]; rfl
  rw [hform]
  have hne : s₁ ++ '%' :: 'a' :: s₂ ≠ [] := by simp
  rw [resolve_path_of_ne_nil _ _ _ _ _ _ _ _ hne, if_pos rfl]
  have hm : findMatches (s₁ ++ '%' :: 'a' :: s₂) 0 = [(s₁.length, 'a')] := by
    rw [findMatches_append_left s₁ _ 0 h₁,
      findMatches_token 'a' _ _ (by simp [tokenChars]),
      findMatches_eq_nil_of_no_token s₂ (no_token_of_no_percent s₂ h₂)]
    simp
  rw [hm, show ([(s₁.length, 'a')] : List (Nat × Char)).reverse = [(s₁.length, 'a')] by simp,
    applyRev_cons am slurm_no_val id host user name _ _ _ _ _
      (tokenReplacement_a am slurm_no_val id host user name),
    replaceRange_middle s₁ s₂ slurm_no_val '%' 'a', applyRev_nil]

/-- C8 witness at a concrete template and context. -/
theorem resolve_path_na_sentinel_witness :
    ('%' ∉ str "x-") ∧ ('%' ∉ str ".log") ∧
    resolve_path (str "x-" ++ str "%a" ++ str ".log") (str "9") (str "N/A")
        (str "1") (str "h") (str "u") (str "n") (str "/w") =
      some (str "x-" ++ slurm_no_val ++ str ".log") :=
  ⟨by decide, by decide,
    resolve_path_na_sentinel (str "x-") (str ".log") (str "9") (str "1") (str "h")
      (str "u") (str "n") (str "/w") (by decide) (by decide)⟩

/-- C5 counterexample: the claim includes the empty template, but the code
synthesizes a default path for an empty template instead of returning it
unchanged — at this input the result is `/w/slurm-7.out`, not the empty path. -/
theorem resolve_path_identity_counterexample :
    resolve_path [] (str "1") (str "N/A") (str "7") (str "h") (str "u") (str "n") (str "/w") =
      some (str "/w/slurm-7.out") ∧
    some (str "/w/slurm-7.out") ≠ some ([] : Str) := by
  constructor
  · decide
  · decide

/-- C5 amended: `resolve_path` is the identity on every NON-EMPTY template with
no occurrence of a recognized token (for the empty template it synthesizes the
default path from the working directory instead). -/
theorem resolve_path_identity_amended (s am aid id host user name wd : Str)
    (hne : s ≠ [])
    (h : ∀ t₁ c t₂, s = t₁ ++ '%' :: c :: t₂ → c ∉ tokenChars) :
    resolve_path s am aid id host user name wd = some s := by
  rw [resolve_path_of_ne_nil _ _ _ _ _ _ _ _ hne,
    findMatches_eq_nil_of_no_token s h 0]
  rfl

/-- C5 witness at a concrete token-free template. -/
theorem resolve_path_identity_witness :
    resolve_path (str "plain.txt") (str "1") (str "2") (str "3") (str "h") (str "u")
        (str "n") (str "/w") = some (str "plain.txt") :=
  resolve_path_identity_amended (str "plain.txt") (str "1") (str "2") (str "3")
    (str "h") (str "u") (str "n") (str "/w") (by decide)
    (no_token_of_no_percent _ (by decide))

/-! ## Helper lemmas about splitting and the finished-line parser -/

theorem splitOnListAux_not_mem (c : Char) :
    ∀ (l : Str), c ∉ l → ∀ (fuel : Nat) (acc : Str),
      splitOnListAux [c] fuel l acc = [acc.reverse ++ l] := by
  intro l
  induction l with
  | nil =>
    intro _ fuel acc
    cases fuel <;> simp [splitOnListAux]
  | cons x xs ih =>
    intro hc fuel acc
    cases fuel with
    | zero => rfl
    | succ fuel =>
      have hcx : c ≠ x := by rintro rfl; exact hc (List.mem_cons_self _ _)
      have hpre : ([c].isPrefixOf (x :: xs)) = false := by
        simp [List.isPrefixOf, hcx]
      rw [show splitOnListAux [c] (fuel + 1) (x :: xs) acc =
          if [c].isPrefixOf (x :: xs) then
            acc.reverse :: splitOnListAux [c] fuel (xs.drop ([c].length - 1)) []
          else splitOnListAux [c] fuel xs (x :: acc) from rfl,
        hpre]
      simp only [Bool.false_eq_true, if_false]
      rw [ih (fun h => hc (List.mem_cons_of_mem _ h)) fuel (x :: acc)]
      simp

theorem splitOnList_underscore_not_mem (l : Str) (h : '_' ∉ l) :
    splitOnList (str "_") l = [l] := by
  show splitOnList ['_'] l = [l]
  rw [splitOnList, if_neg (by simp), splitOnListAux_not_mem '_' l h l.length []]
  simp

theorem derive_array_ids_of_split_two (id a b : Str)
    (h : splitOnList (str "_") id = [a, b]) : derive_array_ids id = (a, b) := by
  have hm : '_' ∈ id := by
    by_contra hnm
    rw [splitOnList_underscore_not_mem id hnm] at h
    simp at h
  unfold derive_array_ids
  rw [if_pos hm, h]

theorem derive_array_ids_of_not_split_two (id : Str)
    (h : ∀ a b, splitOnList (str "_") id ≠ [a, b]) :
    derive_array_ids id = (id, str "N/A") := by
  unfold derive_array_ids
  by_cases hm : '_' ∈ id
  · rw [if_pos hm]
    rcases hs : splitOnList (str "_") id with _ | ⟨a, _ | ⟨b, _ | ⟨c, rest⟩⟩⟩
    · rfl
    · rfl
    · exact absurd hs (h a b)
    · rfl
  · rw [if_neg hm]

/-- Characterization of `parse_finished_line` on a line whose separator split
yields exactly the required 12 parts. -/
theorem parse_finished_line_eq
    (l id name state user time tres partition nodelist submit reason qos last : Str)
    (h : splitOnList output_separator l =
      [id, name, state, user, time, tres, partition, nodelist, submit, reason, qos, last]) :
    parse_finished_line l = some {
      job_id := id
      array_id := (derive_array_ids id).1
      array_step := if (derive_array_ids id).2 = str "N/A" then none
        else some (derive_array_ids id).2
      name := name
      state := state
      state_compact := compactState state
      reason := if reason = str "None" then none else some reason
      qos := qos
      user := user
      time := time
      tres := tres
      partition := partition
      nodelist := nodelist
      command :=
        (let cmd := List.intercalate (str " ")
          ((split_whitespace submit).dropWhile
            (fun arg => (str "sbatch").isPrefixOf arg || arg.headD ' ' == '-'));
         if cmd = [] then submit else cmd)
      stdout := none
      stderr := none } := by
  simp [parse_finished_line, h, List.getD, finished_fields]

/-! ## Theorems for the parser claims -/

/-- C6: per parser, a line whose delimiter split does not yield that parser's
declared-fields+1 parts produces no record from that parser, and that parser's
batch is processed as if the line were absent (no error is raised for the
batch); the two parsers' conditions are independent of each other. -/
theorem malformed_line_dropped (pre post : List Str) (l : Str) :
    ((splitOnList output_separator (trimStr l)).length ≠ running_fields.length + 1 →
      parse_running_line (trimStr l) = none ∧
      get_running_jobs (pre ++ l :: post) = get_running_jobs (pre ++ post)) ∧
    ((splitOnList output_separator (trimStr l)).length ≠ finished_fields.length + 1 →
      parse_finished_line (trimStr l) = none ∧
      get_finished_jobs (pre ++ l :: post) = get_finished_jobs (pre ++ post)) := by
  constructor
  · intro h1
    have hr : parse_running_line (trimStr l) = none := by
      simp only [parse_running_line]
      rw [if_pos h1]
    exact ⟨hr, by simp [get_running_jobs, List.map_append, List.filterMap_append, hr]⟩
  · intro h2
    have hf : parse_finished_line (trimStr l) = none := by
      simp only [parse_finished_line]
      rw [if_pos h2]
    exact ⟨hf, by simp [get_finished_jobs, List.map_append, List.filterMap_append, hf]⟩

/-- C6 witness: a line with no separator splits into 1 part, which is neither
19 nor 12, so it is dropped from both batches; each implication of the theorem
is applied separately with its own length hypothesis. -/
theorem malformed_line_dropped_witness :
    (parse_running_line (trimStr (str "garbage")) = none ∧
     get_running_jobs ([str "a"] ++ str "garbage" :: [str "b"]) =
       get_running_jobs ([str "a"] ++ [str "b"])) ∧
    (parse_finished_line (trimStr (str "garbage")) = none ∧
     get_finished_jobs ([str "a"] ++ str "garbage" :: [str "b"]) =
       get_finished_jobs ([str "a"] ++ [str "b"])) :=
  ⟨(malformed_line_dropped [str "a"] [str "b"] (str "garbage")).1 (by decide),
   (malformed_line_dropped [str "a"] [str "b"] (str "garbage")).2 (by decide)⟩

/-- C7: on every accepted finished-jobs line, the command field is the raw
submit line with leading whitespace-separated tokens starting with `sbatch` or
`-` stripped (the remaining tokens rejoined with single spaces), falling back
to the raw submit line when the stripping yields the empty string. -/
theorem finished_command_normalization
    (l id name state user time tres partition nodelist submit reason qos last : Str)
    (h : splitOnList output_separator l =
      [id, name, state, user, time, tres, partition, nodelist, submit, reason, qos, last]) :
    ∃ j, parse_finished_line l = some j ∧
      j.command =
        (let cmd := List.intercalate (str " ")
          ((split_whitespace submit).dropWhile
            (fun arg => (str "sbatch").isPrefixOf arg || arg.headD ' ' == '-'));
         if cmd = [] then submit else cmd) :=
  ⟨_, parse_finished_line_eq l id name state user time tres partition nodelist submit
    reason qos last h, rfl⟩

/-- C7 witness on a concrete accepted line whose submit line is
`sbatch -p gpu run.sh arg`. -/
theorem finished_command_normalization_witness :
    ∃ j, parse_finished_line (str "7###turm###n###turm###FAILED###turm###u###turm###t###turm###tr###turm###p###turm###nl###turm###sbatch -p gpu run.sh arg###turm###None###turm###q###turm###") = some j ∧
      j.command =
        (let cmd := List.intercalate (str " ")
          ((split_whitespace (str "sbatch -p gpu run.sh arg")).dropWhile
            (fun arg => (str "sbatch").isPrefixOf arg || arg.headD ' ' == '-'));
         if cmd = [] then str "sbatch -p gpu run.sh arg" else cmd) :=
  finished_command_normalization _ (str "7") (str "n") (str "FAILED") (str "u")
    (str "t") (str "tr") (str "p") (str "nl") (str "sbatch -p gpu run.sh arg")
    (str "None") (str "q") (str "") (by decide)

/-- C4 counterexample: for the job id `123_` (one separator, empty second
part) the parser derives `array_id = "123"` and `array_step = Some("")`,
whereas the claim's "otherwise" branch predicts `array_id = "123_"` and
`array_step = None`. -/
theorem array_id_derivation_counterexample :
    (parse_finished_line (str "123_###turm###n###turm###COMPLETED###turm###u###turm###t###turm###tr###turm###p###turm###nl###turm###run.sh###turm###None###turm###q###turm###")).map
        (fun j => (j.array_id, j.array_step)) =
      some (str "123", some (str "")) ∧
    (str "123", some (str "")) ≠ (str "123_", (none : Option Str)) := by
  constructor
  · decide
  · decide

/-- C4 amended: on every accepted finished-jobs line, if splitting the job id
on `'_'` yields exactly two parts (each possibly empty), the first part is
`array_id` and the second is the array-task id, with `array_step = Some` of it
unless it is the literal `N/A` (then `None`); otherwise `array_id = job_id`
and `array_step = None`. -/
theorem array_id_derivation_amended
    (l id name state user time tres partition nodelist submit reason qos last : Str)
    (h : splitOnList output_separator l =
      [id, name, state, user, time, tres, partition, nodelist, submit, reason, qos, last]) :
    ∃ j, parse_finished_line l = some j ∧ j.job_id = id ∧
      (∀ a b, splitOnList (str "_") id = [a, b] →
        j.array_id = a ∧ j.array_step = (if b = str "N/A" then none else some b)) ∧
      ((∀ a b, splitOnList (str "_") id ≠ [a, b]) →
        j.array_id = id ∧ j.array_step = none) := by
  refine ⟨_, parse_finished_line_eq l id name state user time tres partition nodelist
    submit reason qos last h, rfl, ?_, ?_⟩
  · intro a b hs
    have hd := derive_array_ids_of_split_two id a b hs
    constructor
    · simp [hd]
    · simp [hd]
  · intro hno
    have hd := derive_array_ids_of_not_split_two id hno
    constructor
    · simp [hd]
    · simp [hd]

/-- C4 witness: the composite id `123_4` yields `array_id = "123"` and
`array_step = Some("4")`. -/
theorem array_id_derivation_witness :
    ∃ j, parse_finished_line (str "123_4###turm###n###turm###COMPLETED###turm###u###turm###t###turm###tr###turm###p###turm###nl###turm###run.sh###turm###None###turm###q###turm###") = some j ∧
      j.array_id = str "123" ∧ j.array_step = some (str "4") := by
  obtain ⟨j, hp, hid, himp, hno⟩ := array_id_derivation_amended
    (str "123_4###turm###n###turm###COMPLETED###turm###u###turm###t###turm###tr###turm###p###turm###nl###turm###run.sh###turm###None###turm###q###turm###") (str "123_4") (str "n")
    (str "COMPLETED") (str "u") (str "t") (str "tr") (str "p") (str "nl") (str "run.sh")
    (str "None") (str "q") (str "") (by decide)
  obtain ⟨ha, hb⟩ := himp (str "123") (str "4") (by decide)
  exact ⟨j, hp, ha, by rw [hb]; decide⟩

/-! ## Helper lemmas about the job cache and one poll cycle -/

theorem upsertAll_cons (j : Job) (r : List Job) (c : JobCache) :
    upsertAll (j :: r) c = upsertAll r (cacheInsert j.job_id j c) := rfl

theorem runCycle_fst (r f : List Job) (c : JobCache) :
    (runCycle r f c).1 = r ++ f.map (backfill (upsertAll r c)) := rfl

theorem runCycle_snd (r f : List Job) (c : JobCache) :
    (runCycle r f c).2 = (upsertAll r c).filter
      (fun kv : Str × Job =>
        decide (kv.1 ∈ (r ++ f.map (backfill (upsertAll r c))).map (fun j => j.job_id))) :=
  rfl

theorem cacheGet_eq_none_of_forall (k : Str) (c : JobCache) (h : ∀ e ∈ c, e.1 ≠ k) :
    cacheGet k c = none := by
  induction c with
  | nil => rfl
  | cons e c ih =>
    obtain ⟨k', v⟩ := e
    simp only [cacheGet]
    rw [if_neg (h (k', v) (List.mem_cons_self _ _))]
    exact ih (fun e he => h e (List.mem_cons_of_mem _ he))

theorem cacheGet_filter (k : Str) (p : Str × Job → Bool) (c : JobCache)
    (hk : ∀ v, p (k, v) = true) :
    cacheGet k (c.filter p) = cacheGet k c := by
  induction c with
  | nil => rfl
  | cons e c ih =>
    obtain ⟨k', v⟩ := e
    by_cases hkk : k' = k
    · subst hkk
      simp [List.filter_cons, hk v, cacheGet]
    · cases hp : p (k', v) with
      | false => simp [List.filter_cons, hp, cacheGet, hkk, ih]
      | true => simp [List.filter_cons, hp, cacheGet, hkk, ih]

theorem cacheGet_filter_none (k : Str) (p : Str × Job → Bool) (c : JobCache)
    (hk : ∀ v, p (k, v) = false) :
    cacheGet k (c.filter p) = none := by
  apply cacheGet_eq_none_of_forall
  intro e he
  obtain ⟨k', v⟩ := e
  obtain ⟨_, hpe⟩ := List.mem_filter.mp he
  intro h1
  rw [show k' = k from h1] at hpe
  simp [hk v] at hpe

theorem cacheGet_insert_self (k : Str) (v : Job) (c : JobCache) :
    cacheGet k (cacheInsert k v c) = some v := by
  simp [cacheInsert, cacheGet]

theorem cacheGet_insert_ne (k k' : Str) (v : Job) (c : JobCache) (h : k ≠ k') :
    cacheGet k' (cacheInsert k v c) = cacheGet k' c := by
  simp only [cacheInsert, cacheGet]
  rw [if_neg h]
  exact cacheGet_filter k' _ c (fun w => decide_eq_true (Ne.symm h))

theorem upsertAll_get_of_forall_ne :
    ∀ (r : List Job) (c : JobCache) (id : Str), (∀ j ∈ r, j.job_id ≠ id) →
      cacheGet id (upsertAll r c) = cacheGet id c := by
  intro r
  induction r with
  | nil => intro c id _; rfl
  | cons j r ih =>
    intro c id h
    rw [upsertAll_cons, ih _ id (fun j' hj' => h j' (List.mem_cons_of_mem _ hj')),
      cacheGet_insert_ne _ _ _ _ (h j (List.mem_cons_self _ _))]

theorem upsertAll_get_last :
    ∀ (r : List Job) (c : JobCache) (id : Str), (∃ j ∈ r, j.job_id = id) →
      ∃ j, j ∈ r ∧ j.job_id = id ∧ cacheGet id (upsertAll r c) = some j := by
  intro r
  induction r with
  | nil => intro c id hex; exact absurd hex (by simp)
  | cons j r ih =>
    intro c id hex
    by_cases hr : ∃ j' ∈ r, j'.job_id = id
    · obtain ⟨j', hm, hid, hget⟩ := ih (cacheInsert j.job_id j c) id hr
      exact ⟨j', List.mem_cons_of_mem _ hm, hid, by rw [upsertAll_cons]; exact hget⟩
    · obtain ⟨j₀, hj₀m, hj₀id⟩ := hex
      rcases List.mem_cons.mp hj₀m with rfl | hmem
      · refine ⟨j₀, List.mem_cons_self _ _, hj₀id, ?_⟩
        rw [upsertAll_cons,
          upsertAll_get_of_forall_ne r _ id (fun j' hj' h' => hr ⟨j', hj', h'⟩), hj₀id,
          cacheGet_insert_self]
      · exact absurd ⟨j₀, hmem, hj₀id⟩ hr

theorem backfill_job_id (c : JobCache) (j : Job) : (backfill c j).job_id = j.job_id := by
  cases h : cacheGet j.job_id c <;> simp [backfill, h]

theorem backfill_stdout_of_get (c : JobCache) (j cj : Job)
    (h : cacheGet j.job_id c = some cj) :
    (backfill c j).stdout = cj.stdout := by
  simp [backfill, h]

/-! ## Theorems for the cache / poll-loop claims -/

/-- C3: a job id absent from both the running and the finished batch of a cycle
is absent from the cache after the cycle, whatever the cache held before;
equivalently, the pruned cache's keys all occur among the published job ids. -/
theorem cache_prune_absent (c0 : JobCache) (r f : List Job) (id : Str)
    (h1 : ∀ j ∈ r, j.job_id ≠ id) (h2 : ∀ j ∈ f, j.job_id ≠ id) :
    cacheGet id (runCycle r f c0).2 = none := by
  rw [runCycle_snd]
  apply cacheGet_filter_none
  intro v
  apply decide_eq_false
  intro hmem
  obtain ⟨j, hjm, hjid⟩ := List.mem_map.mp hmem
  rcases List.mem_append.mp hjm with hjr | hjf
  · exact h1 j hjr hjid
  · obtain ⟨jf, hjfm, rfl⟩ := List.mem_map.mp hjf
    rw [backfill_job_id] at hjid
    exact h2 jf hjfm hjid

/-- C2: a job id seen running with a given stdout in cycle N, absent from the
running batch of cycle N+1 but present in its finished batch, is published in
cycle N+1 with that cached stdout backfilled onto the finished record. -/
theorem cache_backfill_round_trip (c0 : JobCache) (r1 f1 r2 f2 : List Job)
    (id out : Str)
    (h1 : ∃ j ∈ r1, j.job_id = id)
    (h2 : ∀ j ∈ r1, j.job_id = id → j.stdout = some out)
    (h3 : ∀ j ∈ r2, j.job_id ≠ id)
    (h4 : ∃ j ∈ f2, j.job_id = id) :
    (∃ j ∈ (runCycle r2 f2 (runCycle r1 f1 c0).2).1, j.job_id = id) ∧
    (∀ j ∈ (runCycle r2 f2 (runCycle r1 f1 c0).2).1, j.job_id = id →
      j.stdout = some out) := by
  obtain ⟨jw, hjwm, hjwid, hjwget⟩ := upsertAll_get_last r1 c0 id h1
  have hc1 : cacheGet id (runCycle r1 f1 c0).2 = some jw := by
    rw [runCycle_snd]
    rw [cacheGet_filter id _ _ (fun v => decide_eq_true
      (List.mem_map.mpr ⟨jw, List.mem_append_left _ hjwm, hjwid⟩))]
    exact hjwget
  have hc2 : cacheGet id (upsertAll r2 (runCycle r1 f1 c0).2) = some jw :=
    (upsertAll_get_of_forall_ne r2 _ id h3).trans hc1
  constructor
  · obtain ⟨jf, hjfm, hjfid⟩ := h4
    refine ⟨backfill (upsertAll r2 (runCycle r1 f1 c0).2) jf, ?_, ?_⟩
    · rw [runCycle_fst]
      exact List.mem_append_right _ (List.mem_map.mpr ⟨jf, hjfm, rfl⟩)
    · rw [backfill_job_id]
      exact hjfid
  · intro j hj hjid
    rw [runCycle_fst] at hj
    rcases List.mem_append.mp hj with hjr | hjf
    · exact absurd hjid (h3 j hjr)
    · obtain ⟨jf, hjfm, rfl⟩ := List.mem_map.mp hjf
      have hfid : jf.job_id = id := by
        rw [← backfill_job_id (upsertAll r2 (runCycle r1 f1 c0).2) jf]
        exact hjid
      rw [backfill_stdout_of_get _ _ jw (by rw [hfid]; exact hc2)]
      exact h2 jw hjwm hjwid

/-- C10: the published list of a cycle is the running batch followed by the
backfilled finished batch, and backfilling modifies at most the `stdout` and
`stderr` fields — every other field of a backfilled record equals the value
produced by the finished-jobs parser, whether or not a cached entry exists. -/
theorem backfill_frame (c : JobCache) (r : List Job) (out_lines : List Str) :
    (runCycle r (get_finished_jobs out_lines) c).1 =
      r ++ (get_finished_jobs out_lines).map (backfill (upsertAll r c)) ∧
    ∀ (c' : JobCache) (j : Job),
      (backfill c' j).job_id = j.job_id ∧
      (backfill c' j).array_id = j.array_id ∧
      (backfill c' j).array_step = j.array_step ∧
      (backfill c' j).name = j.name ∧
      (backfill c' j).user = j.user ∧
      (backfill c' j).partition = j.partition ∧
      (backfill c' j).nodelist = j.nodelist ∧
      (backfill c' j).command = j.command ∧
      (backfill c' j).qos = j.qos ∧
      (backfill c' j).state = j.state ∧
      (backfill c' j).state_compact = j.state_compact ∧
      (backfill c' j).reason = j.reason ∧
      (backfill c' j).time = j.time ∧
      (backfill c' j).tres = j.tres := by
  refine ⟨runCycle_fst _ _ _, ?_⟩
  intro c' j
  cases h : cacheGet j.job_id c' <;> simp [backfill, h]

/-- Sample running job used by the cycle witnesses. -/
def sampleJob : Job :=
  { job_id := str "10", array_id := str "10", array_step := none, name := str "n",
    state := str "RUNNING", state_compact := str "R", reason := none, qos := str "q",
    user := str "u", time := str "t", tres := str "tr", partition := str "p",
    nodelist := str "nl", command := str "c", stdout := some (str "/a/out"),
    stderr := some (str "/a/err") }

/-- Sample finished record for the same job id, as the history parser would
produce it (no paths). -/
def sampleJobFinished : Job :=
  { sampleJob with
    state := str "COMPLETED",
    state_compact := str "CD",
    stdout := none,
    stderr := none }

/-- C2 witness: job `10` runs in cycle 1 with stdout `/a/out`, then appears
only in the finished batch of cycle 2, and is published with stdout `/a/out`. -/
theorem cache_backfill_round_trip_witness :
    (∃ j ∈ [sampleJob], j.job_id = str "10") ∧
    (∀ j ∈ [sampleJob], j.job_id = str "10" → j.stdout = some (str "/a/out")) ∧
    (∀ j ∈ ([] : List Job), j.job_id ≠ str "10") ∧
    (∃ j ∈ [sampleJobFinished], j.job_id = str "10") ∧
    ((∃ j ∈ (runCycle [] [sampleJobFinished] (runCycle [sampleJob] [] []).2).1,
        j.job_id = str "10") ∧
      (∀ j ∈ (runCycle [] [sampleJobFinished] (runCycle [sampleJob] [] []).2).1,
        j.job_id = str "10" → j.stdout = some (str "/a/out"))) :=
  ⟨by decide, by decide, by decide, by decide,
    cache_backfill_round_trip [] [sampleJob] [] [] [sampleJobFinished]
      (str "10") (str "/a/out") (by decide) (by decide) (by decide) (by decide)⟩

/-- C3 witness: a stale cache entry for id `99` is pruned by a cycle whose
batches only mention id `10`. -/
theorem cache_prune_absent_witness :
    (∀ j ∈ [sampleJob], j.job_id ≠ str "99") ∧
    (∀ j ∈ ([] : List Job), j.job_id ≠ str "99") ∧
    cacheGet (str "99") (runCycle [sampleJob] [] [(str "99", sampleJob)]).2 = none :=
  ⟨by decide, by decide,
    cache_prune_absent [(str "99", sampleJob)] [sampleJob] [] (str "99")
      (by decide) (by decide)⟩
